import Mathlib

/-!
Verification of the distributed actor-learner-evaluator orchestration core of
`elegantrl/train/run.py` and `elegantrl/train/evaluator.py`.

The shallow embedding below models:
* the Learner's per-tensor segment-write logic used both for the worker gather
  step (run.py lines 325-356) and for the inter-learner ring exchange
  (run.py lines 360-386), including its three branches: exact shape match,
  last-dimension mismatch (silent truncation), incompatible shape (skip);
* the Worker message loop (run.py lines 502-518);
* the EvaluatorProc receive/flag loop (run.py lines 560-574) together with
  `Evaluator.evaluate_and_save`'s step accounting, gating, best-return
  bookkeeping and checkpoint decisions (evaluator.py lines 70-233).

Tensors are modelled by their shape `(horizon, cols, feat)` together with a
total data function; entries outside the shape bounds are junk and all
statements quantify only inside the bounds.  Real-valued returns are modelled
over `WithBot Rat`, with the bottom element standing for numpy's `-inf`.
-/

/-- A three-dimensional tensor `(horizon_len, num_seqs, feature_dim)` as used
for the Learner's preallocated buffer tensors (`states` etc., run.py 304-309).
`data t c f` is the entry at time `t`, column (sequence) `c`, feature `f`. -/
structure Tensor3 (α : Type) where
  horizon : Nat
  cols : Nat
  feat : Nat
  data : Nat → Nat → Nat → α

/-- The Learner's guarded assignment of a received payload `src` into the
column slice `[bufI, bufJ)` of `tgt` (run.py lines 331-343 and 375-386):
if shapes agree the slice is overwritten; if only the last dimension
disagrees the payload is silently truncated to the common prefix of feature
indices and written; otherwise the write is skipped entirely.  Python slicing
clamps the bounds at `tgt.cols`, hence the `min`s.  No branch raises. -/
def writeSegment {α : Type} (tgt : Tensor3 α) (bufI bufJ : Nat) (src : Tensor3 α) : Tensor3 α :=
  if (src.horizon = tgt.horizon ∧ src.cols = min bufJ tgt.cols - min bufI tgt.cols ∧
      src.feat = tgt.feat) then
    { tgt with data := fun t c f =>
        if (min bufI tgt.cols ≤ c ∧ c < min bufJ tgt.cols) then
          src.data t (c - min bufI tgt.cols) f
        else tgt.data t c f }
  else if (src.horizon = tgt.horizon ∧ src.cols = min bufJ tgt.cols - min bufI tgt.cols) then
    { tgt with data := fun t c f =>
        if (min bufI tgt.cols ≤ c ∧ c < min bufJ tgt.cols ∧ f < min src.feat tgt.feat) then
          src.data t (c - min bufI tgt.cols) f
        else tgt.data t c f }
  else tgt

/-- The Learner's gather step for one buffer tensor (run.py lines 326-343):
each received message `(worker_id, payload)` is written into columns
`[num_envs * worker_id, num_envs * (worker_id + 1))`, in arrival order. -/
def gather {α : Type} (E : Nat) (buf : Tensor3 α) (msgs : List (Nat × Tensor3 α)) : Tensor3 α :=
  msgs.foldl (fun b m => writeSegment b (E * m.1) (E * (m.1 + 1)) m.2) buf

/-- The inter-learner ring exchange, receive side, for one buffer tensor
(run.py lines 368-386): learner `lid` receives, for `shift` ranging over
`0..L-2`, the local segment of learner `(lid + shift + 1) % L` and writes it
into columns `[E*W*(shift+1), E*W*(shift+2))`.  `seg j` is the segment sent
by learner `j` (its own buffer's first `E*W` columns, run.py line 363). -/
def ringExchange {α : Type} (L W E lid : Nat) (seg : Nat → Tensor3 α)
    (buf : Tensor3 α) : Tensor3 α :=
  (List.range (L - 1)).foldl
    (fun b s => writeSegment b (E * W * (s + 1)) (E * W * (s + 2)) (seg ((lid + s + 1) % L)))
    buf

/-- One Learner round's writes into a buffer tensor: the worker gather step
followed by the ring exchange.  The resulting tensor is exactly the value of
`buffer_items_tensor`'s component at the `buffer.update(buffer_items_tensor)`
call (run.py lines 388-392). -/
def learnerRoundBuffer {α : Type} (L W E lid : Nat) (buf : Tensor3 α)
    (msgs : List (Nat × Tensor3 α)) (seg : Nat → Tensor3 α) : Tensor3 α :=
  ringExchange L W E lid seg (gather E buf msgs)

/-- The Worker loop (run.py lines 502-518), driven by the list of messages
arriving on its policy channel, in order.  `explore` abstracts
`agent.explore_env` together with the environment: from a received policy
and the current environment state it produces one trajectory batch and the
new last state.  The result is the ordered list of
`(worker_id, trajectory_batch, last_state)` messages the Worker sends, and a
flag that is `true` exactly when the loop was exited through the `None`
sentinel branch, i.e. the process reached its cleanup (`env.close()`) and
returns normally (exit code 0); with an exhausted inbox and no sentinel the
Worker is still blocked in `recv` (`false`). -/
def workerRun {π σ β : Type} (wid : Nat) (explore : π → σ → β × σ) :
    σ → List (Option π) → List (Nat × β × σ) × Bool
  | _, [] => ([], false)
  | _, none :: _ => ([], true)
  | st, some p :: rest =>
    let bs := explore p st
    let out := workerRun wid explore bs.2 rest
    ((wid, bs.1, bs.2) :: out.1, out.2)

/-- Evaluator configuration fields consumed by the gating logic
(evaluator.py `__init__`, run.py line 556-557). -/
structure EvalParams where
  recorderStep : Nat
  evalPerStep : Nat
  saveGap : Nat
  ifKeepSave : Bool
  breakStep : Nat

/-- The mutable fields of `Evaluator` that the gating/bookkeeping logic
touches.  `evalStepCounter` is an integer because it is initialised to
`-eval_per_step` (evaluator.py line 23-25); `maxR` lives in `WithBot Rat`
with `⊥` standing for the initial `-np.inf` (evaluator.py line 37). -/
structure EvalState where
  totalStep : Nat
  evalStepCounter : Int
  maxR : WithBot Rat
  saveCounter : Nat

/-- What one `evaluate_and_save` call did: whether the gates passed and
evaluation episodes were run, and whether a model checkpoint was written on
the improvement branch (evaluator.py lines 201-207) or on the periodic
`save_gap` branch (lines 209-218). -/
structure EvalOutcome where
  ranEpisodes : Bool
  savedImprove : Bool
  savedPeriodic : Bool

/-- One message received by the EvaluatorProc loop (run.py line 563),
bundled with the two external inputs of that cycle: the mean episodic return
the external evaluation routine would produce (`⊥` = `-np.inf`, i.e. failed
or malformed evaluation), and whether the `{cwd}/stop` marker file exists at
the moment line 573 checks it. -/
structure EvalMsg (π : Type) where
  actor : Option π
  steps : Nat
  avgR : WithBot Rat
  stopExists : Bool

/-- Initial evaluator state (evaluator.py lines 17, 23-25, 28, 37). -/
def initEvalState (p : EvalParams) : EvalState :=
  { totalStep := 0
    evalStepCounter := -(p.evalPerStep : Int)
    maxR := ⊥
    saveCounter := 0 }

/-- Step accounting, gating, best-return bookkeeping and checkpoint decisions
of `Evaluator.evaluate_and_save` (evaluator.py lines 70-233).  The evaluation
episodes themselves are external; their aggregate result enters as `avgR`.
Branches, in source order: the `recorder_step` gate, the `eval_per_step`
gate (both return after only adding `steps` to the total), then
`eval_step_counter = total_step`, episode evaluation, the `max_r` update
guarded by `avg_r > -inf` (lines 179-182), the `if_keep_save` early return
(line 196), and the improvement/periodic checkpoint branches
(lines 199-218). -/
def evaluate_and_save (p : EvalParams) (st : EvalState) (steps : Nat) (avgR : WithBot Rat) :
    EvalState × EvalOutcome :=
  let total := st.totalStep + steps
  if (total < p.recorderStep) then
    ({ st with totalStep := total }, ⟨false, false, false⟩)
  else if ((total : Int) < st.evalStepCounter + (p.evalPerStep : Int)) then
    ({ st with totalStep := total }, ⟨false, false, false⟩)
  else
    let newMax := if ((⊥ : WithBot Rat) < avgR) then max st.maxR avgR else st.maxR
    let st1 : EvalState :=
      { totalStep := total
        evalStepCounter := (total : Int)
        maxR := newMax
        saveCounter := st.saveCounter }
    if (p.ifKeepSave = false) then (st1, ⟨true, false, false⟩)
    else if ((⊥ : WithBot Rat) < avgR ∧ st.maxR < avgR) then
      ({ st1 with saveCounter := st.saveCounter + 1 }, ⟨true, true, false⟩)
    else if (p.saveGap ≤ st.saveCounter + 1) then
      ({ st1 with saveCounter := 0 }, ⟨true, false, true⟩)
    else
      ({ st1 with saveCounter := st.saveCounter + 1 }, ⟨true, false, false⟩)

/-- One iteration of the EvaluatorProc loop body (run.py lines 562-574):
receive `(actor, steps, exp_r, logging_tuple)`; if `actor` is `None` just
advance the step total, otherwise run `evaluate_and_save`; then compute the
continue flag `(total_step <= break_step) and (not stop-marker)` and send
it.  Returns the new state, the outcome record, and the flag sent. -/
def evalCycle {π : Type} (p : EvalParams) (st : EvalState) (m : EvalMsg π) :
    EvalState × EvalOutcome × Bool :=
  let so :=
    match m.actor with
    | none => ({ st with totalStep := st.totalStep + m.steps }, (⟨false, false, false⟩ : EvalOutcome))
    | some _ => evaluate_and_save p st m.steps m.avgR
  (so.1, so.2, decide (so.1.totalStep ≤ p.breakStep) && !m.stopExists)

/-- The continue condition of the single-process training loop
(run.py line 137): `(evaluator.total_step <= break_step) and
(not os.path.exists(f"{cwd}/stop"))`. -/
def singleProcessIfTrain (totalStep breakStep : Nat) (stopExists : Bool) : Bool :=
  decide (totalStep ≤ breakStep) && !stopExists

/-- The EvaluatorProc `while if_train` loop (run.py lines 560-574) over a
finite stream of incoming messages: each iteration produces one flag, and
the loop exits as soon as a flag is `false` (messages after that are never
consumed).  Returns the list of flags sent, in order. -/
def evalRun {π : Type} (p : EvalParams) : EvalState → List (EvalMsg π) → List Bool
  | _, [] => []
  | st, m :: rest =>
    let r := evalCycle p st m
    r.2.2 :: (if r.2.2 then evalRun p r.1 rest else [])

/-! ### Concrete instances used by witnesses and counterexamples -/

/-- Learner buffer tensor for a `W = 2, E = 1, H = 1, F = 1` round. -/
def wBuf : Tensor3 Nat := ⟨1, 2, 1, fun _ _ _ => 0⟩

/-- Payload sent by worker 0 in the concrete round. -/
def wPay0 : Tensor3 Nat := ⟨1, 1, 1, fun _ _ _ => 5⟩

/-- Payload sent by worker 1 in the concrete round. -/
def wPay1 : Tensor3 Nat := ⟨1, 1, 1, fun _ _ _ => 7⟩

/-- The two worker messages, arriving with worker 1 first. -/
def wMsgs : List (Nat × Tensor3 Nat) := [(1, wPay1), (0, wPay0)]

/-- Local segments of two learners for a concrete ring exchange
(`L = 2, W = 1, E = 1`): learner `j`'s segment holds the value `j + 10`. -/
def rSeg : Nat → Tensor3 Nat := fun j => ⟨1, 1, 1, fun _ _ _ => j + 10⟩

/-- Learner 0's buffer before the ring exchange: two columns, block 0
already holding its own local segment (value 10). -/
def rBuf : Tensor3 Nat := ⟨1, 2, 1, fun _ _ _ => 10⟩

/-- Shape-mismatch target: one column, three features, all zero. -/
def c6Tgt : Tensor3 Nat := ⟨1, 1, 3, fun _ _ _ => 0⟩

/-- Shape-mismatch payload: one column but only two features, all sevens —
its shape disagrees with `c6Tgt`'s expected segment shape in the last
dimension only. -/
def c6Src : Tensor3 Nat := ⟨1, 1, 2, fun _ _ _ => 7⟩

/-- Single-learner, single-worker round buffer (`L = W = E = H = F = 1`),
initially zero. -/
def c8Buf : Tensor3 Nat := ⟨1, 1, 1, fun _ _ _ => 0⟩

/-- A payload whose horizon (2) is incompatible with `c8Buf`'s (1); the
Learner's `else` branch skips this write entirely (run.py line 343). -/
def c8Bad : Tensor3 Nat := ⟨2, 1, 1, fun _ _ _ => 1⟩

/-- Buffer for a fully populated `L = 2, W = 1, E = 1` round. -/
def c8WBuf : Tensor3 Nat := ⟨1, 2, 1, fun _ _ _ => 0⟩

/-- Well-shaped worker payload for the `c8WBuf` round, holding value 3. -/
def c8Pay : Tensor3 Nat := ⟨1, 1, 1, fun _ _ _ => 3⟩

/-- Peer learner segments for the `c8WBuf` round: learner `j` sends the
value `j + 20`. -/
def c8Seg : Nat → Tensor3 Nat := fun j => ⟨1, 1, 1, fun _ _ _ => j + 20⟩

/-- Evaluator parameters for the concrete scenarios: record from step 0,
evaluate every 5 steps, save gap 1, keep saving, step budget 100. -/
def pEx : EvalParams := ⟨0, 5, 1, true, 100⟩

/-- Initial evaluator state for `pEx`. -/
def stEx : EvalState := initEvalState pEx

/-- A `(null, steps=10)` message: no policy, stop marker absent. -/
def mNull : EvalMsg Unit := ⟨none, 10, ⊥, false⟩

/-- A `(policy, steps=10)` message whose evaluation yields mean return 1. -/
def mPol : EvalMsg Unit := ⟨some (), 10, ((1 : Rat) : WithBot Rat), false⟩

/-- Evaluator parameters with step budget 0, so the first cycle already
exceeds the budget and produces a `false` flag. -/
def pStop : EvalParams := ⟨0, 5, 1, true, 0⟩

/-- A `(null, steps=5)` message used to drive `pStop` past its budget. -/
def mBig : EvalMsg Unit := ⟨none, 5, ⊥, false⟩

/-! ### Basic properties of `writeSegment` -/

theorem writeSegment_horizon {α : Type} (tgt : Tensor3 α) (bufI bufJ : Nat) (src : Tensor3 α) :
    (writeSegment tgt bufI bufJ src).horizon = tgt.horizon := by
  unfold writeSegment
  split
  · rfl
  · split
    · rfl
    · rfl

theorem writeSegment_cols {α : Type} (tgt : Tensor3 α) (bufI bufJ : Nat) (src : Tensor3 α) :
    (writeSegment tgt bufI bufJ src).cols = tgt.cols := by
  unfold writeSegment
  split
  · rfl
  · split
    · rfl
    · rfl

theorem writeSegment_feat {α : Type} (tgt : Tensor3 α) (bufI bufJ : Nat) (src : Tensor3 α) :
    (writeSegment tgt bufI bufJ src).feat = tgt.feat := by
  unfold writeSegment
  split
  · rfl
  · split
    · rfl
    · rfl

theorem writeSegment_data_miss {α : Type} (tgt src : Tensor3 α) (bufI bufJ t c f : Nat)
    (h : c < bufI ∨ bufJ ≤ c) :
    (writeSegment tgt bufI bufJ src).data t c f = tgt.data t c f := by
  unfold writeSegment
  split
  · show (if min bufI tgt.cols ≤ c ∧ c < min bufJ tgt.cols then _ else tgt.data t c f) = _
    rw [if_neg]
    omega
  · split
    · show (if min bufI tgt.cols ≤ c ∧ c < min bufJ tgt.cols ∧ f < min src.feat tgt.feat
          then _ else tgt.data t c f) = _
      rw [if_neg]
      omega
    · rfl

theorem writeSegment_data_hit {α : Type} (tgt src : Tensor3 α) (bufI bufJ t c f : Nat)
    (hh : src.horizon = tgt.horizon) (hcw : src.cols = bufJ - bufI) (hf : src.feat = tgt.feat)
    (hJ : bufJ ≤ tgt.cols) (h1 : bufI ≤ c) (h2 : c < bufJ) :
    (writeSegment tgt bufI bufJ src).data t c f = src.data t (c - bufI) f := by
  have hI : bufI ≤ tgt.cols := le_trans (le_trans h1 (le_of_lt h2)) hJ
  have hminI : min bufI tgt.cols = bufI := min_eq_left hI
  have hminJ : min bufJ tgt.cols = bufJ := min_eq_left hJ
  unfold writeSegment
  rw [if_pos ⟨hh, by rw [hminI, hminJ]; exact hcw, hf⟩]
  show (if min bufI tgt.cols ≤ c ∧ c < min bufJ tgt.cols then
      src.data t (c - min bufI tgt.cols) f else tgt.data t c f) = _
  rw [hminI, hminJ, if_pos ⟨h1, h2⟩]

/-! ### Generic lemmas about folds of `writeSegment` -/

theorem foldl_write_horizon {α β : Type} (lo hi : β → Nat) (pay : β → Tensor3 α) :
    ∀ (xs : List β) (buf : Tensor3 α),
      (List.foldl (fun b x => writeSegment b (lo x) (hi x) (pay x)) buf xs).horizon
        = buf.horizon := by
  intro xs
  induction xs with
  | nil => intro buf; rfl
  | cons y ys ih =>
    intro buf
    rw [List.foldl_cons, ih, writeSegment_horizon]

theorem foldl_write_cols {α β : Type} (lo hi : β → Nat) (pay : β → Tensor3 α) :
    ∀ (xs : List β) (buf : Tensor3 α),
      (List.foldl (fun b x => writeSegment b (lo x) (hi x) (pay x)) buf xs).cols
        = buf.cols := by
  intro xs
  induction xs with
  | nil => intro buf; rfl
  | cons y ys ih =>
    intro buf
    rw [List.foldl_cons, ih, writeSegment_cols]

theorem foldl_write_feat {α β : Type} (lo hi : β → Nat) (pay : β → Tensor3 α) :
    ∀ (xs : List β) (buf : Tensor3 α),
      (List.foldl (fun b x => writeSegment b (lo x) (hi x) (pay x)) buf xs).feat
        = buf.feat := by
  intro xs
  induction xs with
  | nil => intro buf; rfl
  | cons y ys ih =>
    intro buf
    rw [List.foldl_cons, ih, writeSegment_feat]

/-- A column `c` lying outside every write's target range is left untouched
by a sequence of segment writes. -/
theorem foldl_write_preserve {α β : Type} (lo hi : β → Nat) (pay : β → Tensor3 α)
    (t c f : Nat) :
    ∀ (xs : List β) (buf : Tensor3 α),
      (∀ x ∈ xs, c < lo x ∨ hi x ≤ c) →
      (List.foldl (fun b x => writeSegment b (lo x) (hi x) (pay x)) buf xs).data t c f
        = buf.data t c f := by
  intro xs
  induction xs with
  | nil => intro buf _; rfl
  | cons y ys ih =>
    intro buf h
    rw [List.foldl_cons, ih _ (fun x hx => h x (List.mem_cons_of_mem _ hx)),
      writeSegment_data_miss _ _ _ _ _ _ _ (h y (List.mem_cons_self _ _))]

/-- A column inside the target range of the write belonging to `x`, and
outside every other write's range, ends up holding `x`'s payload data. -/
theorem foldl_write_mem {α β : Type} (lo hi : β → Nat) (pay : β → Tensor3 α)
    (t c f : Nat) (x : β) :
    ∀ (xs : List β) (buf : Tensor3 α), x ∈ xs →
      (pay x).horizon = buf.horizon → (pay x).cols = hi x - lo x → (pay x).feat = buf.feat →
      hi x ≤ buf.cols → lo x ≤ c → c < hi x →
      (∀ y ∈ xs, y = x ∨ c < lo y ∨ hi y ≤ c) →
      (List.foldl (fun b z => writeSegment b (lo z) (hi z) (pay z)) buf xs).data t c f
        = (pay x).data t (c - lo x) f := by
  intro xs
  induction xs with
  | nil => intro buf hmem; exact absurd hmem (List.not_mem_nil x)
  | cons y ys ih =>
    intro buf hmem hph hpc hpf hhi hlo hc hout
    rw [List.foldl_cons]
    by_cases hxy : x ∈ ys
    · exact ih (writeSegment buf (lo y) (hi y) (pay y)) hxy
        (by rw [writeSegment_horizon]; exact hph)
        hpc
        (by rw [writeSegment_feat]; exact hpf)
        (by rw [writeSegment_cols]; exact hhi)
        hlo hc
        (fun z hz => hout z (List.mem_cons_of_mem _ hz))
    · have hxeq : x = y := by
        rcases List.mem_cons.mp hmem with h | h
        · exact h
        · exact absurd h hxy
      subst hxeq
      rw [foldl_write_preserve]
      · exact writeSegment_data_hit _ _ _ _ _ _ _ hph hpc hpf hhi hlo hc
      · intro z hz
        rcases hout z (List.mem_cons_of_mem _ hz) with h | h
        · exact absurd (h ▸ hz) hxy
        · exact h

/-- Disjointness of the column ranges of two distinct slots of width `E`. -/
theorem seg_disjoint (E i j c₀ : Nat) (hc : c₀ < E) (hne : j ≠ i) :
    E * i + c₀ < E * j ∨ E * (j + 1) ≤ E * i + c₀ := by
  rcases Nat.lt_or_ge i j with h | h
  · left
    have h1 : E * (i + 1) ≤ E * j := Nat.mul_le_mul (Nat.le_refl E) (by omega)
    have h2 : E * (i + 1) = E * i + E := by ring
    omega
  · right
    have h1 : E * (j + 1) ≤ E * i := Nat.mul_le_mul (Nat.le_refl E) (by omega)
    omega

/-! ### The gather step places content by worker id -/

/-- After the gather fold, the columns of worker `m.1` hold exactly the
payload that worker sent, provided all worker ids are distinct and the
payload shapes match their target segments. -/
theorem gather_data_of_mem {α : Type} (E W : Nat) (buf : Tensor3 α)
    (msgs : List (Nat × Tensor3 α))
    (hnd : (msgs.map Prod.fst).Nodup)
    (hW : ∀ m ∈ msgs, m.1 < W)
    (hcols : E * W ≤ buf.cols)
    (hshape : ∀ m ∈ msgs, m.2.horizon = buf.horizon ∧ m.2.cols = E ∧ m.2.feat = buf.feat)
    (m : Nat × Tensor3 α) (hm : m ∈ msgs) (t c f : Nat) (hc : c < E) :
    (gather E buf msgs).data t (E * m.1 + c) f = m.2.data t c f := by
  have hmul : E * (m.1 + 1) = E * m.1 + E := by ring
  have key := foldl_write_mem (fun m => E * m.1) (fun m => E * (m.1 + 1)) Prod.snd
    t (E * m.1 + c) f m msgs buf hm
    (hshape m hm).1
    (by show m.2.cols = E * (m.1 + 1) - E * m.1
        have := (hshape m hm).2.1
        omega)
    (hshape m hm).2.2
    (by show E * (m.1 + 1) ≤ buf.cols
        exact le_trans (Nat.mul_le_mul (Nat.le_refl E) (hW m hm)) hcols)
    (Nat.le_add_right _ _)
    (by show E * m.1 + c < E * (m.1 + 1); omega)
    ?_
  · rw [show E * m.1 + c - E * m.1 = c from by omega] at key
    exact key
  · intro y hy
    by_cases hy1 : y.1 = m.1
    · exact Or.inl (List.inj_on_of_nodup_map hnd hy hm hy1)
    · exact Or.inr (seg_disjoint E m.1 y.1 c hc hy1)

/-- Every column below `E * W` lies in the slot of exactly one worker id
drawn from a list that is a permutation of `0, ..., W-1`. -/
theorem gather_coverage (E W : Nat) (ids : List Nat)
    (hperm : List.Perm ids (List.range W)) (c : Nat) (hc : c < E * W) :
    ∃ i, i < W ∧ i ∈ ids ∧ E * i ≤ c ∧ c < E * (i + 1) := by
  have hE : 0 < E := by
    rcases Nat.eq_zero_or_pos E with h | h
    · subst h; simp at hc
    · exact h
  have hdiv : c / E < W := by
    rw [Nat.div_lt_iff_lt_mul hE]
    rw [Nat.mul_comm] at hc
    exact hc
  have h1 := Nat.div_add_mod c E
  have h2 : c % E < E := Nat.mod_lt _ hE
  have h3 : E * (c / E + 1) = E * (c / E) + E := by ring
  exact ⟨c / E, hdiv, hperm.mem_iff.mpr (List.mem_range.mpr hdiv), by omega, by omega⟩

/-! ### The ring exchange -/

/-- Columns in block `0` (below `E * W`) are untouched by the ring-exchange
receive loop: all its writes target columns at or above `E * W`. -/
theorem ring_block_zero {α : Type} (L W E lid : Nat) (seg : Nat → Tensor3 α)
    (buf : Tensor3 α) (t c f : Nat) (hc : c < E * W) :
    (ringExchange L W E lid seg buf).data t c f = buf.data t c f := by
  unfold ringExchange
  apply foldl_write_preserve
  intro s _
  left
  have h1 : E * W * 1 ≤ E * W * (s + 1) := Nat.mul_le_mul (Nat.le_refl (E * W)) (by omega)
  have h2 : E * W * 1 = E * W := by ring
  omega

/-- After the ring-exchange receive loop, block `b ≥ 1` of learner `lid`'s
buffer holds exactly the segment sent by learner `(lid + b) % L`. -/
theorem ring_block_pos {α : Type} (L W E lid : Nat) (seg : Nat → Tensor3 α)
    (buf : Tensor3 α) (hL : 0 < L) (hcols : E * W * L ≤ buf.cols)
    (hseg : ∀ j, j < L →
      (seg j).horizon = buf.horizon ∧ (seg j).cols = E * W ∧ (seg j).feat = buf.feat)
    (b : Nat) (hb1 : 1 ≤ b) (hbL : b < L) (t c f : Nat) (hc : c < E * W) :
    (ringExchange L W E lid seg buf).data t (E * W * b + c) f
      = (seg ((lid + b) % L)).data t c f := by
  obtain ⟨s, rfl⟩ : ∃ s, b = s + 1 := ⟨b - 1, by omega⟩
  have hmod : (lid + s + 1) % L < L := Nat.mod_lt _ hL
  have hmul : E * W * (s + 2) = E * W * (s + 1) + E * W := by ring
  have key := foldl_write_mem (fun s => E * W * (s + 1)) (fun s => E * W * (s + 2))
    (fun s => seg ((lid + s + 1) % L)) t (E * W * (s + 1) + c) f s
    (List.range (L - 1)) buf (List.mem_range.mpr (by omega))
    (hseg _ hmod).1
    (by show (seg ((lid + s + 1) % L)).cols = E * W * (s + 2) - E * W * (s + 1)
        have := (hseg _ hmod).2.1
        omega)
    (hseg _ hmod).2.2
    (by show E * W * (s + 2) ≤ buf.cols
        exact le_trans (Nat.mul_le_mul (Nat.le_refl (E * W)) (by omega : s + 2 ≤ L)) hcols)
    (Nat.le_add_right _ _)
    (by show E * W * (s + 1) + c < E * W * (s + 2); omega)
    ?_
  · rw [show E * W * (s + 1) + c - E * W * (s + 1) = c from by omega] at key
    exact key
  · intro y _
    by_cases hy : y = s
    · exact Or.inl hy
    · exact Or.inr (seg_disjoint (E * W) (s + 1) (y + 1) c hc (by omega))

/-- The block-to-peer assignment `b ↦ (lid + b) % L` used by the ring
exchange hits every learner id below `L` exactly once. -/
theorem ring_mod_bijection (L lid : Nat) (hlid : lid < L) (j : Nat) (hj : j < L) :
    ∃ b, b < L ∧ (lid + b) % L = j ∧ ∀ bb, bb < L → (lid + bb) % L = j → bb = b := by
  have hL : 0 < L := by omega
  have hb0 : (lid + (L + j - lid) % L) % L = j := by
    rw [Nat.add_mod_mod, show lid + (L + j - lid) = L + j from by omega, Nat.add_mod_left,
      Nat.mod_eq_of_lt hj]
  refine ⟨(L + j - lid) % L, Nat.mod_lt _ hL, hb0, ?_⟩
  intro bb hbb heq
  have h3 : (lid + bb) % L = (lid + (L + j - lid) % L) % L := heq.trans hb0.symm
  have h4 : bb % L = (L + j - lid) % L % L := Nat.ModEq.add_left_cancel' lid h3
  rwa [Nat.mod_eq_of_lt hbb, Nat.mod_eq_of_lt (Nat.mod_lt _ hL)] at h4

/-! ### Claim theorems -/

/-- C1: for every configuration of `W` workers with `E` envs per worker,
after the Learner's gather step of one round, worker `i`'s trajectory batch
occupies exactly columns `[i*E, (i+1)*E)` of every buffer tensor, equal to
what worker `i` sent, and the first `W*E` columns are fully covered by the
workers' slots — for any arrival order of the `W` messages (the message list
is only constrained to carry each worker id exactly once, so content is
placed by `worker_id`, not by arrival order). -/
theorem C1_gather_places_by_worker_id {α : Type} (W E : Nat) (buf : Tensor3 α)
    (msgs : List (Nat × Tensor3 α))
    (hperm : List.Perm (msgs.map Prod.fst) (List.range W))
    (hcols : E * W ≤ buf.cols)
    (hshape : ∀ m ∈ msgs, m.2.horizon = buf.horizon ∧ m.2.cols = E ∧ m.2.feat = buf.feat) :
    (∀ m ∈ msgs, ∀ t c f, c < E →
        (gather E buf msgs).data t (E * m.1 + c) f = m.2.data t c f)
    ∧ (∀ c, c < E * W →
        ∃ i, i < W ∧ i ∈ msgs.map Prod.fst ∧ E * i ≤ c ∧ c < E * (i + 1)) := by
  have hnd : (msgs.map Prod.fst).Nodup := hperm.nodup_iff.mpr (List.nodup_range W)
  have hW : ∀ m ∈ msgs, m.1 < W := fun m hm =>
    List.mem_range.mp (hperm.mem_iff.mp (List.mem_map_of_mem Prod.fst hm))
  exact ⟨fun m hm t c f hc => gather_data_of_mem E W buf msgs hnd hW hcols hshape m hm t c f hc,
    fun c hc => gather_coverage E W (msgs.map Prod.fst) hperm c hc⟩

/-- Witness for C1: a concrete `W = 2, E = 1` round whose messages arrive
with worker 1 first; each worker's payload still lands in its own column. -/
theorem C1_gather_places_by_worker_id_witness :
    List.Perm (wMsgs.map Prod.fst) (List.range 2)
    ∧ ((∀ m ∈ wMsgs, ∀ t c f, c < 1 →
          (gather 1 wBuf wMsgs).data t (1 * m.1 + c) f = m.2.data t c f)
      ∧ (∀ c, c < 1 * 2 →
          ∃ i, i < 2 ∧ i ∈ wMsgs.map Prod.fst ∧ 1 * i ≤ c ∧ c < 1 * (i + 1))) :=
  ⟨by decide,
    C1_gather_places_by_worker_id 2 1 wBuf wMsgs (by decide) (by decide) (by decide)⟩

/-- C2: for `L ≥ 2` learners, after the inter-learner ring exchange, learner
`lid`'s buffer of `L*W*E` columns holds, in block `b`, the local segment of
learner `(lid + b) % L` — block 0 is its own segment — and the block-to-peer
assignment hits every one of the `L` learners' segments exactly once: no
segment duplicated, none omitted. -/
theorem C2_ring_exchange_all_to_all {α : Type} (L W E lid : Nat) (seg : Nat → Tensor3 α)
    (buf : Tensor3 α) (hL : 2 ≤ L) (hlid : lid < L)
    (hcols : E * W * L ≤ buf.cols)
    (hseg : ∀ j, j < L →
      (seg j).horizon = buf.horizon ∧ (seg j).cols = E * W ∧ (seg j).feat = buf.feat)
    (hblock0 : ∀ t c f, c < E * W → buf.data t c f = (seg lid).data t c f) :
    (∀ b, b < L → ∀ t c f, c < E * W →
        (ringExchange L W E lid seg buf).data t (E * W * b + c) f
          = (seg ((lid + b) % L)).data t c f)
    ∧ (∀ j, j < L → ∃ b, b < L ∧ (lid + b) % L = j ∧
        ∀ bb, bb < L → (lid + bb) % L = j → bb = b) := by
  constructor
  · intro b hb t c f hc
    rcases Nat.eq_zero_or_pos b with rfl | hb1
    · rw [show E * W * 0 + c = c from by simp,
        show (lid + 0) % L = lid from by rw [Nat.add_zero, Nat.mod_eq_of_lt hlid],
        ring_block_zero L W E lid seg buf t c f hc]
      exact hblock0 t c f hc
    · exact ring_block_pos L W E lid seg buf (by omega) hcols hseg b hb1 hb t c f hc
  · exact fun j hj => ring_mod_bijection L lid hlid j hj

/-- Witness for C2: a concrete `L = 2, W = 1, E = 1` exchange for learner 0,
whose buffer ends up holding learner 0's segment in block 0 and learner 1's
in block 1. -/
theorem C2_ring_exchange_all_to_all_witness :
    (∀ b, b < 2 → ∀ t c f, c < 1 * 1 →
        (ringExchange 2 1 1 0 rSeg rBuf).data t (1 * 1 * b + c) f
          = (rSeg ((0 + b) % 2)).data t c f)
    ∧ (∀ j, j < 2 → ∃ b, b < 2 ∧ (0 + b) % 2 = j ∧
        ∀ bb, bb < 2 → (0 + bb) % 2 = j → bb = b) :=
  C2_ring_exchange_all_to_all 2 1 1 0 rSeg rBuf (by omega) (by omega) (by decide)
    (fun j _ => ⟨rfl, rfl, rfl⟩) (fun _ _ _ _ => rfl)

/-- C6 counterexample: the claim says a payload whose shape disagrees with
the buffer's expected segment shape makes the Learner raise a fatal
`ShapeMismatchError` and is never silently truncated into the buffer.  In
the code (run.py lines 338-341) a payload disagreeing only in the last
dimension is silently truncated and written: here `c6Src` (1 column, 2
features of value 7) is written into `c6Tgt` (expected 3 features), its
first two features land in the buffer, the third keeps the old value 0, and
no error path exists (`writeSegment` is total). -/
theorem C6_counterexample :
    c6Src.feat ≠ c6Tgt.feat
    ∧ (writeSegment c6Tgt 0 1 c6Src).data 0 0 0 = 7
    ∧ (writeSegment c6Tgt 0 1 c6Src).data 0 0 1 = 7
    ∧ (writeSegment c6Tgt 0 1 c6Src).data 0 0 2 = 0 := by decide

/-- C6 (amended): when a received payload's shape disagrees with the
buffer's expected segment shape only in the last dimension, the Learner
silently truncates it to the overlapping feature range and writes that
(run.py lines 338-341, "Truncating source"); features beyond the overlap
keep their old buffer values; and a payload whose leading dimensions are
incompatible is skipped entirely, leaving the buffer unchanged (line 343,
"Skipping update").  No error is ever raised. -/
theorem C6_mismatch_truncates_or_skips {α : Type} (tgt src : Tensor3 α) (bufI bufJ : Nat)
    (hh : src.horizon = tgt.horizon)
    (hc : src.cols = min bufJ tgt.cols - min bufI tgt.cols)
    (hf : src.feat ≠ tgt.feat) :
    (∀ t c f, min bufI tgt.cols ≤ c → c < min bufJ tgt.cols → f < min src.feat tgt.feat →
        (writeSegment tgt bufI bufJ src).data t c f = src.data t (c - min bufI tgt.cols) f)
    ∧ (∀ t c f, min src.feat tgt.feat ≤ f →
        (writeSegment tgt bufI bufJ src).data t c f = tgt.data t c f)
    ∧ (∀ bad : Tensor3 α, bad.horizon ≠ tgt.horizon → writeSegment tgt bufI bufJ bad = tgt) := by
  refine ⟨?_, ?_, ?_⟩
  · intro t c f h1 h2 h3
    unfold writeSegment
    rw [if_neg (fun hcon => hf hcon.2.2), if_pos ⟨hh, hc⟩]
    show (if (min bufI tgt.cols ≤ c ∧ c < min bufJ tgt.cols ∧ f < min src.feat tgt.feat) then
        src.data t (c - min bufI tgt.cols) f else tgt.data t c f) = _
    rw [if_pos ⟨h1, h2, h3⟩]
  · intro t c f h1
    unfold writeSegment
    rw [if_neg (fun hcon => hf hcon.2.2), if_pos ⟨hh, hc⟩]
    show (if (min bufI tgt.cols ≤ c ∧ c < min bufJ tgt.cols ∧ f < min src.feat tgt.feat) then
        src.data t (c - min bufI tgt.cols) f else tgt.data t c f) = _
    rw [if_neg (fun hcon => absurd hcon.2.2 (by omega))]
  · intro bad hbad
    unfold writeSegment
    rw [if_neg (fun hcon => hbad hcon.1), if_neg (fun hcon => hbad hcon.1)]

/-- Witness for the amended C6 at the concrete mismatched pair
`c6Src`/`c6Tgt` with slice `[0, 1)`. -/
theorem C6_mismatch_truncates_or_skips_witness :
    (∀ t c f, min 0 c6Tgt.cols ≤ c → c < min 1 c6Tgt.cols → f < min c6Src.feat c6Tgt.feat →
        (writeSegment c6Tgt 0 1 c6Src).data t c f = c6Src.data t (c - min 0 c6Tgt.cols) f)
    ∧ (∀ t c f, min c6Src.feat c6Tgt.feat ≤ f →
        (writeSegment c6Tgt 0 1 c6Src).data t c f = c6Tgt.data t c f)
    ∧ (∀ bad : Tensor3 Nat, bad.horizon ≠ c6Tgt.horizon →
        writeSegment c6Tgt 0 1 bad = c6Tgt) :=
  C6_mismatch_truncates_or_skips c6Tgt c6Src 0 1 (by decide) (by decide) (by decide)

/-- C8 counterexample: the claim says a partially-written buffer is never
passed to the update routine.  In the code, a worker payload with an
incompatible shape is skipped (run.py line 343) and `buffer.update` is still
called with the same tensors: in a `L = W = E = 1` round where worker 0's
payload `c8Bad` has horizon 2 against the buffer's 1, the buffer handed to
update still holds its stale initial value 0 in worker 0's column, not the
sent value 1. -/
theorem C8_counterexample :
    (learnerRoundBuffer 1 1 1 0 c8Buf [(0, c8Bad)] c8Seg).data 0 0 0 = 0
    ∧ c8Bad.data 0 0 0 = 1 := by decide

/-- C8 (amended): when every worker payload and every peer segment matches
its target segment shape, the buffer handed to the update routine
(`buffer.update(buffer_items_tensor)` for off-policy, or the on-policy list
assignment, run.py lines 388-392) is fully populated before the call: worker
`i`'s data sits at columns `[i*E, (i+1)*E)`, peer block `b ≥ 1` holds
learner `(lid + b) % L`'s segment, and every column below `E*W*L` belongs to
exactly one of these ranges.  (When a payload's shape is incompatible the
write is skipped and a partially-written buffer is passed to update — see
the counterexample.) -/
theorem C8_round_buffer_fully_populated {α : Type} (L W E lid : Nat) (buf : Tensor3 α)
    (msgs : List (Nat × Tensor3 α)) (seg : Nat → Tensor3 α)
    (hL : 0 < L) (_hlid : lid < L)
    (hperm : List.Perm (msgs.map Prod.fst) (List.range W))
    (hcols : E * W * L ≤ buf.cols)
    (hshape : ∀ m ∈ msgs, m.2.horizon = buf.horizon ∧ m.2.cols = E ∧ m.2.feat = buf.feat)
    (hseg : ∀ j, j < L →
      (seg j).horizon = buf.horizon ∧ (seg j).cols = E * W ∧ (seg j).feat = buf.feat) :
    (∀ m ∈ msgs, ∀ t c f, c < E →
        (learnerRoundBuffer L W E lid buf msgs seg).data t (E * m.1 + c) f = m.2.data t c f)
    ∧ (∀ b, 1 ≤ b → b < L → ∀ t c f, c < E * W →
        (learnerRoundBuffer L W E lid buf msgs seg).data t (E * W * b + c) f
          = (seg ((lid + b) % L)).data t c f)
    ∧ (∀ c, c < E * W * L →
        (∃ i r, i ∈ msgs.map Prod.fst ∧ r < E ∧ c = E * i + r)
        ∨ (∃ b r, 1 ≤ b ∧ b < L ∧ r < E * W ∧ c = E * W * b + r)) := by
  have hnd : (msgs.map Prod.fst).Nodup := hperm.nodup_iff.mpr (List.nodup_range W)
  have hW : ∀ m ∈ msgs, m.1 < W := fun m hm =>
    List.mem_range.mp (hperm.mem_iff.mp (List.mem_map_of_mem Prod.fst hm))
  have hEWle : E * W ≤ buf.cols := by
    have h1 : E * W * 1 ≤ E * W * L := Nat.mul_le_mul (Nat.le_refl (E * W)) hL
    have h2 : E * W * 1 = E * W := by ring
    omega
  have hgh : (gather E buf msgs).horizon = buf.horizon :=
    foldl_write_horizon (fun (m : Nat × Tensor3 α) => E * m.1)
      (fun (m : Nat × Tensor3 α) => E * (m.1 + 1)) Prod.snd msgs buf
  have hgc : (gather E buf msgs).cols = buf.cols :=
    foldl_write_cols (fun (m : Nat × Tensor3 α) => E * m.1)
      (fun (m : Nat × Tensor3 α) => E * (m.1 + 1)) Prod.snd msgs buf
  have hgf : (gather E buf msgs).feat = buf.feat :=
    foldl_write_feat (fun (m : Nat × Tensor3 α) => E * m.1)
      (fun (m : Nat × Tensor3 α) => E * (m.1 + 1)) Prod.snd msgs buf
  refine ⟨?_, ?_, ?_⟩
  · intro m hm t c f hc
    have hmul : E * (m.1 + 1) = E * m.1 + E := by ring
    have hmW : E * (m.1 + 1) ≤ E * W := Nat.mul_le_mul (Nat.le_refl E) (hW m hm)
    have hpos : E * m.1 + c < E * W := by omega
    show (ringExchange L W E lid seg (gather E buf msgs)).data t (E * m.1 + c) f
      = m.2.data t c f
    rw [ring_block_zero L W E lid seg (gather E buf msgs) t (E * m.1 + c) f hpos]
    exact gather_data_of_mem E W buf msgs hnd hW hEWle hshape m hm t c f hc
  · intro b hb1 hb t c f hc
    show (ringExchange L W E lid seg (gather E buf msgs)).data t (E * W * b + c) f
      = (seg ((lid + b) % L)).data t c f
    exact ring_block_pos L W E lid seg (gather E buf msgs) hL (by omega) (fun j hj =>
        ⟨by rw [hgh]; exact (hseg j hj).1, (hseg j hj).2.1, by rw [hgf]; exact (hseg j hj).2.2⟩)
      b hb1 hb t c f hc
  · intro c hc
    have hEWpos : 0 < E * W := by
      rcases Nat.eq_zero_or_pos (E * W) with h | h
      · rw [h] at hc; simp at hc
      · exact h
    have hE : 0 < E := by
      rcases Nat.eq_zero_or_pos E with h | h
      · rw [h] at hEWpos; simp at hEWpos
      · exact h
    have hdm := Nat.div_add_mod c (E * W)
    have hr : c % (E * W) < E * W := Nat.mod_lt _ hEWpos
    by_cases hb : c / (E * W) = 0
    · left
      have hzero : E * W * (c / (E * W)) = 0 := by rw [hb]; ring
      have hcEW : c < E * W := by omega
      have hdmE := Nat.div_add_mod c E
      have hiW : c / E < W := by
        rw [Nat.div_lt_iff_lt_mul hE, Nat.mul_comm W E]
        exact hcEW
      exact ⟨c / E, c % E, hperm.mem_iff.mpr (List.mem_range.mpr hiW),
        Nat.mod_lt _ hE, by omega⟩
    · right
      have hbL : c / (E * W) < L := by
        rw [Nat.div_lt_iff_lt_mul hEWpos, Nat.mul_comm L (E * W)]
        exact hc
      exact ⟨c / (E * W), c % (E * W), Nat.pos_of_ne_zero hb, hbL, hr, by omega⟩

/-- Witness for the amended C8: a concrete well-shaped `L = 2, W = 1, E = 1`
round for learner 0; the buffer handed to update is fully populated. -/
theorem C8_round_buffer_fully_populated_witness :
    (∀ m ∈ [(0, c8Pay)], ∀ t c f, c < 1 →
        (learnerRoundBuffer 2 1 1 0 c8WBuf [(0, c8Pay)] c8Seg).data t (1 * m.1 + c) f
          = m.2.data t c f)
    ∧ (∀ b, 1 ≤ b → b < 2 → ∀ t c f, c < 1 * 1 →
        (learnerRoundBuffer 2 1 1 0 c8WBuf [(0, c8Pay)] c8Seg).data t (1 * 1 * b + c) f
          = (c8Seg ((0 + b) % 2)).data t c f)
    ∧ (∀ c, c < 1 * 1 * 2 →
        (∃ i r, i ∈ ([(0, c8Pay)].map Prod.fst) ∧ r < 1 ∧ c = 1 * i + r)
        ∨ (∃ b r, 1 ≤ b ∧ b < 2 ∧ r < 1 * 1 ∧ c = 1 * 1 * b + r)) :=
  C8_round_buffer_fully_populated 2 1 1 0 c8WBuf [(0, c8Pay)] c8Seg (by omega) (by omega)
    (by decide) (by decide) (by decide) (fun j _ => ⟨rfl, rfl, rfl⟩)

/-- C3: on every Evaluator cycle, the continue flag sent back to the Learner
equals the conjunction `(running step total <= step budget) AND (stop marker
absent)` evaluated on the updated total (run.py line 573), and it is the
very formula that decides continuation of the single-process training loop
(run.py line 137). -/
theorem C3_continue_flag_formula {π : Type} (p : EvalParams) (st : EvalState) (m : EvalMsg π) :
    ((evalCycle p st m).2.2 = true ↔
      ((evalCycle p st m).1.totalStep ≤ p.breakStep ∧ m.stopExists = false))
    ∧ (evalCycle p st m).2.2
        = singleProcessIfTrain (evalCycle p st m).1.totalStep p.breakStep m.stopExists := by
  constructor
  · show (decide ((evalCycle p st m).1.totalStep ≤ p.breakStep) && !m.stopExists) = true ↔ _
    rw [Bool.and_eq_true, decide_eq_true_eq, Bool.not_eq_true']
  · rfl

/-- Once the flag list shows `false` at position `i`, the EvaluatorProc
`while` loop has exited: the flag list has exactly `i + 1` entries. -/
theorem evalRun_false_last {π : Type} (p : EvalParams) :
    ∀ (msgs : List (EvalMsg π)) (st : EvalState) (i : Nat)
      (hi : i < (evalRun p st msgs).length),
      (evalRun p st msgs).get ⟨i, hi⟩ = false → i + 1 = (evalRun p st msgs).length := by
  intro msgs
  induction msgs with
  | nil => intro st i hi; simp [evalRun] at hi
  | cons m rest ih =>
    intro st i hi hget
    by_cases hflag : (evalCycle p st m).2.2 = true
    · have hrun : evalRun p st (m :: rest)
          = (evalCycle p st m).2.2 :: evalRun p (evalCycle p st m).1 rest := by
        simp [evalRun, hflag]
      cases i with
      | zero =>
        rw [List.get_eq_getElem] at hget
        simp [hrun, hflag] at hget
      | succ n =>
        have hlen : (evalRun p st (m :: rest)).length
            = (evalRun p (evalCycle p st m).1 rest).length + 1 := by
          rw [hrun, List.length_cons]
        have hn : n < (evalRun p (evalCycle p st m).1 rest).length := by omega
        have hget' : (evalRun p (evalCycle p st m).1 rest).get ⟨n, hn⟩ = false := by
          rw [List.get_eq_getElem] at hget ⊢
          rw [← hget]
          simp only [hrun, List.getElem_cons_succ]
        have := ih (evalCycle p st m).1 n hn hget'
        omega
    · have hrun : evalRun p st (m :: rest) = [(evalCycle p st m).2.2] := by
        simp [evalRun, hflag]
      rw [hrun] at hi ⊢
      simp only [List.length_singleton] at hi ⊢
      omega

/-- C4: the continue flag is monotone within a run — once a `false` flag has
been produced at position `i`, no later Evaluator cycle of the same run
exists at all (the `while if_train` loop exits immediately after sending the
`false` flag, run.py line 561), so in particular no subsequent cycle
produces a `true` flag. -/
theorem C4_flag_monotone {π : Type} (p : EvalParams) (st : EvalState)
    (msgs : List (EvalMsg π)) (i j : Nat) (hi : i < (evalRun p st msgs).length)
    (hfalse : (evalRun p st msgs).get ⟨i, hi⟩ = false) (hij : i < j) :
    ¬ j < (evalRun p st msgs).length := by
  have := evalRun_false_last p msgs st i hi hfalse
  omega

/-- Witness for C4: with a zero step budget the first cycle's flag is
`false`, and there is no cycle after it. -/
theorem C4_flag_monotone_witness :
    (evalRun pStop (initEvalState pStop) [mBig]).get ⟨0, by decide⟩ = false
    ∧ ¬ 1 < (evalRun pStop (initEvalState pStop) [mBig]).length :=
  ⟨rfl, C4_flag_monotone pStop (initEvalState pStop) [mBig] 0 1 (by decide) rfl (by decide)⟩

/-- C5: whenever the Evaluator receives a message whose policy field is
null, it adds that message's `steps` to its running total and runs no
evaluation episodes (run.py lines 566-567); and in the concrete scenario
`(null, steps=10)` then `(policy, steps=10)` the running total afterwards is
20 and only the second message triggers evaluation episodes. -/
theorem C5_null_policy_advances_total :
    (∀ (π : Type) (p : EvalParams) (st : EvalState) (m : EvalMsg π), m.actor = none →
        (evalCycle p st m).1.totalStep = st.totalStep + m.steps
        ∧ (evalCycle p st m).2.1.ranEpisodes = false)
    ∧ ((evalCycle pEx stEx mNull).1.totalStep = 10
      ∧ (evalCycle pEx stEx mNull).2.1.ranEpisodes = false
      ∧ (evalCycle pEx (evalCycle pEx stEx mNull).1 mPol).1.totalStep = 20
      ∧ (evalCycle pEx (evalCycle pEx stEx mNull).1 mPol).2.1.ranEpisodes = true) := by
  constructor
  · intro π p st m hm
    constructor
    · simp [evalCycle, hm]
    · simp [evalCycle, hm]
  · refine ⟨by decide, by decide, by decide, by decide⟩

/-- Witness for C5: the null-policy branch at the concrete message
`mNull`. -/
theorem C5_null_policy_advances_total_witness :
    (evalCycle pEx stEx mNull).1.totalStep = stEx.totalStep + mNull.steps
    ∧ (evalCycle pEx stEx mNull).2.1.ranEpisodes = false :=
  C5_null_policy_advances_total.1 Unit pEx stEx mNull rfl

/-- C7: a Worker that receives the null stop sentinel on its policy channel
immediately exits its loop (run.py lines 505-506) and terminates cleanly
(reaches `env.close()` and returns normally, exit code 0), and it sends no
further trajectory message after receiving the sentinel: whatever arrives
after the sentinel — including mid-round deliveries queued behind it — its
output equals exactly the sends for the policies received before the
sentinel, and the clean-exit flag is `true`. -/
theorem C7_worker_stop_sentinel {π σ β : Type} (wid : Nat) (explore : π → σ → β × σ)
    (st : σ) (ps : List π) (rest : List (Option π)) :
    workerRun wid explore st (ps.map some ++ none :: rest)
      = ((workerRun wid explore st (ps.map some)).1, true) := by
  induction ps generalizing st with
  | nil => rfl
  | cons q qs ih =>
    show ((wid, (explore q st).1, (explore q st).2)
        :: (workerRun wid explore (explore q st).2 (qs.map some ++ none :: rest)).1,
      (workerRun wid explore (explore q st).2 (qs.map some ++ none :: rest)).2)
      = ((wid, (explore q st).1, (explore q st).2)
        :: (workerRun wid explore (explore q st).2 (qs.map some)).1, true)
    rw [ih]

/-- C9: for every non-null policy message a Worker receives before the first
sentinel, it sends exactly one `(worker_id, trajectory_batch, last_state)`
message before blocking on the next receive — the number of sends equals the
number of leading non-null messages in its inbox — and every message it
sends carries its own fixed `worker_id`; a null message produces no outbound
message. -/
theorem C9_worker_sends_one_per_policy {π σ β : Type} (wid : Nat) (explore : π → σ → β × σ)
    (st : σ) (inbox : List (Option π)) :
    (workerRun wid explore st inbox).1.length
        = (inbox.takeWhile Option.isSome).length
    ∧ ∀ m ∈ (workerRun wid explore st inbox).1, m.1 = wid := by
  induction inbox generalizing st with
  | nil =>
    exact ⟨rfl, fun m hm => absurd hm (List.not_mem_nil m)⟩
  | cons o os ih =>
    cases o with
    | none =>
      refine ⟨rfl, fun m hm => absurd hm (List.not_mem_nil m)⟩
    | some q =>
      constructor
      · show ((wid, (explore q st).1, (explore q st).2)
            :: (workerRun wid explore (explore q st).2 os).1).length = _
        rw [List.length_cons, (ih (explore q st).2).1]
        rfl
      · intro m hm
        rcases List.mem_cons.mp hm with h | h
        · rw [h]
        · exact (ih (explore q st).2).2 m h

/-- C10: the Evaluator's best-seen-return bookkeeping `max_r` is monotone
non-decreasing across every call to `evaluate_and_save` (evaluator.py lines
179-182: `max_r = max(max_r, avg_r)`, guarded by `avg_r > -inf`, and
untouched on the early-return gates), and a model checkpoint is written on
the improvement path only when the new average return strictly exceeds the
previous `max_r` (lines 191, 201-207). -/
theorem C10_maxR_monotone_and_improve_save (p : EvalParams) (st : EvalState)
    (steps : Nat) (avgR : WithBot Rat) :
    st.maxR ≤ (evaluate_and_save p st steps avgR).1.maxR
    ∧ ((evaluate_and_save p st steps avgR).2.savedImprove = true → st.maxR < avgR) := by
  simp only [evaluate_and_save]
  by_cases h1 : st.totalStep + steps < p.recorderStep
  · rw [if_pos h1]
    exact ⟨le_refl _, fun h => Bool.noConfusion h⟩
  · rw [if_neg h1]
    by_cases h2 : ((st.totalStep + steps : Nat) : Int) < st.evalStepCounter + (p.evalPerStep : Int)
    · rw [if_pos h2]
      exact ⟨le_refl _, fun h => Bool.noConfusion h⟩
    · rw [if_neg h2]
      have hmax : st.maxR ≤
          (if ((⊥ : WithBot Rat) < avgR) then max st.maxR avgR else st.maxR) := by
        by_cases hb : (⊥ : WithBot Rat) < avgR
        · rw [if_pos hb]
          exact le_max_left _ _
        · rw [if_neg hb]
      by_cases h3 : p.ifKeepSave = false
      · rw [if_pos h3]
        exact ⟨hmax, fun h => Bool.noConfusion h⟩
      · rw [if_neg h3]
        by_cases h4 : ((⊥ : WithBot Rat) < avgR ∧ st.maxR < avgR)
        · rw [if_pos h4]
          exact ⟨hmax, fun _ => h4.2⟩
        · rw [if_neg h4]
          by_cases h5 : p.saveGap ≤ st.saveCounter + 1
          · rw [if_pos h5]
            exact ⟨hmax, fun h => Bool.noConfusion h⟩
          · rw [if_neg h5]
            exact ⟨hmax, fun h => Bool.noConfusion h⟩

/-- Witness for C10: at the concrete improving call the checkpoint is
written, so the new return strictly exceeds the previous best. -/
theorem C10_maxR_monotone_and_improve_save_witness :
    stEx.maxR < ((1 : Rat) : WithBot Rat) :=
  (C10_maxR_monotone_and_improve_save pEx stEx 10 ((1 : Rat) : WithBot Rat)).2 (by decide)
